import Mathlib

/-!
Verification development for the Cloudflare Workers AI chat system
(worker/index.ts, worker/memory_do.ts, worker/task_workflow.ts).

The TypeScript source is shallowly embedded: JavaScript JSON values become
the `Json` inductive, the Durable Object `MemoryDO.fetch` becomes `memStep`,
the SSE read loop of `POST /api/chat/stream` becomes `drain`/`feedChunk`,
the workflow planning step becomes `planFromText`, and the worker router
becomes `workerFetch`.  External platform primitives (the model inference
call, `crypto.randomUUID`, the workflow engine) are inputs supplied through
an environment record; `JSON.parse` and `JSON.stringify` are embedded as
executable functions on `Json`.
-/

/-- JavaScript JSON values.  Numbers keep their literal lexeme (their
numeric value is never inspected by this program).  Object fields keep
insertion order; duplicate keys resolve to the last occurrence, as in
`JSON.parse`. -/
inductive Json where
  | null
  | bool (b : Bool)
  | num (lit : String)
  | str (s : String)
  | arr (elems : List Json)
  | obj (fields : List (String × Json))

/-- Property access `j.k`: defined only on objects, last duplicate wins;
`undefined` is modelled as `none`. -/
def getProp (j : Json) (k : String) : Option Json :=
  match j with
  | .obj fields => (fields.reverse.find? (fun p => p.1 == k)).map (fun p => p.2)
  | _ => none

/-- Whether the digits of a JSON number literal (before any exponent) are
all zero, i.e. the number's value is ±0. -/
def numLitIsZero (lit : String) : Bool :=
  (lit.toList.takeWhile (fun c => c ≠ 'e' ∧ c ≠ 'E')).all
    (fun c => !c.isDigit || c == '0')

/-- JavaScript truthiness of a JSON value (`null`, `false`, `±0`, `""` are
falsy; every object and array is truthy). -/
def jsTruthy : Json → Bool
  | .null => false
  | .bool b => b
  | .num lit => !numLitIsZero lit
  | .str s => s ≠ ""
  | .arr _ => true
  | .obj _ => true

/- ### Conversation Store (worker/memory_do.ts) -/

/-- The requests `MemoryDO.fetch` distinguishes: `GET /get`,
`POST /append` (with a parsed JSON body), `POST /clear`, and anything
else (404). -/
inductive MemReq where
  | getHist
  | appendMsg (m : Json)
  | clearHist
  | other

/-- A Durable Object response: `Response.json(body)` or the 404 fallthrough. -/
inductive MemResponse where
  | ok (body : Json)
  | notFound

/-- `history.slice(-20)`: keep the last `n` entries of a list. -/
def sliceLast (n : Nat) (l : List α) : List α :=
  l.drop (l.length - n)

/-- `(await this.state.storage.get("history")) ?? []`. -/
def storedHistory (st : Option (List Json)) : List Json :=
  st.getD []

/-- One `MemoryDO.fetch` call: the Durable Object storage under key
`"history"` is `st` (`none` when the key is absent); returns the new
storage content and the HTTP response. -/
def memStep (st : Option (List Json)) : MemReq → Option (List Json) × MemResponse
  | .getHist =>
      (st, .ok (Json.obj [("history", Json.arr (storedHistory st))]))
  | .appendMsg m =>
      let history := storedHistory st
      let trimmed := sliceLast 20 (history ++ [m])
      (some trimmed, .ok (Json.obj [("ok", Json.bool true), ("size", Json.num (toString trimmed.length))]))
  | .clearHist =>
      (none, .ok (Json.obj [("ok", Json.bool true)]))
  | .other => (st, .notFound)

/-- The storage state after a sequence of `/append` calls. -/
def runAppends (st : Option (List Json)) (ms : List Json) : Option (List Json) :=
  ms.foldl (fun s m => (memStep s (.appendMsg m)).1) st

/- ### JSON.parse (the JS builtin used by `safeJsonParse` and the stream
decoder), embedded as a fuel-based recursive-descent parser. -/

/-- JSON whitespace skip (space, tab, newline, carriage return). -/
def skipWSJson (cs : List Char) : List Char :=
  cs.dropWhile (fun c => c == ' ' || c == '\t' || c == '\n' || c == '\r')

def hexDigitVal (c : Char) : Option Nat :=
  if '0' ≤ c ∧ c ≤ '9' then some (c.toNat - 48)
  else if 'a' ≤ c ∧ c ≤ 'f' then some (c.toNat - 87)
  else if 'A' ≤ c ∧ c ≤ 'F' then some (c.toNat - 55)
  else none

/-- Body of a JSON string literal after the opening quote: handles the
escape sequences of the JSON grammar and rejects raw control characters. -/
def parseStringBody : List Char → List Char → Option (String × List Char)
  | [], _ => none
  | '"' :: rest, acc => some (String.mk acc.reverse, rest)
  | '\\' :: rest, acc =>
    (match rest with
     | '"' :: r => parseStringBody r ('"' :: acc)
     | '\\' :: r => parseStringBody r ('\\' :: acc)
     | '/' :: r => parseStringBody r ('/' :: acc)
     | 'b' :: r => parseStringBody r ('\x08' :: acc)
     | 'f' :: r => parseStringBody r ('\x0c' :: acc)
     | 'n' :: r => parseStringBody r ('\n' :: acc)
     | 'r' :: r => parseStringBody r ('\r' :: acc)
     | 't' :: r => parseStringBody r ('\t' :: acc)
     | 'u' :: a :: b :: c :: d :: r =>
       (match hexDigitVal a, hexDigitVal b, hexDigitVal c, hexDigitVal d with
        | some x1, some x2, some x3, some x4 =>
            parseStringBody r (Char.ofNat (((x1 * 16 + x2) * 16 + x3) * 16 + x4) :: acc)
        | _, _, _, _ => none)
     | _ => none)
  | c :: rest, acc =>
    if c.toNat < 32 then none else parseStringBody rest (c :: acc)

def digitsSpan (cs : List Char) : List Char × List Char :=
  (cs.takeWhile Char.isDigit, cs.dropWhile Char.isDigit)

def digits1 (cs : List Char) : Option (List Char × List Char) :=
  let p := digitsSpan cs
  if p.1.isEmpty then none else some p

def parseIntPart : List Char → Option (List Char × List Char)
  | '0' :: r => some (['0'], r)
  | c :: r =>
    if c.isDigit then
      let p := digitsSpan r
      some (c :: p.1, p.2)
    else none
  | [] => none

def parseFracPart : List Char → Option (List Char × List Char)
  | '.' :: r => (digits1 r).map (fun p => ('.' :: p.1, p.2))
  | cs => some ([], cs)

def parseExpTail (e : Char) (r : List Char) : Option (List Char × List Char) :=
  match r with
  | '+' :: r2 => (digits1 r2).map (fun p => (e :: '+' :: p.1, p.2))
  | '-' :: r2 => (digits1 r2).map (fun p => (e :: '-' :: p.1, p.2))
  | _ => (digits1 r).map (fun p => (e :: p.1, p.2))

def parseExpPart : List Char → Option (List Char × List Char)
  | 'e' :: r => parseExpTail 'e' r
  | 'E' :: r => parseExpTail 'E' r
  | cs => some ([], cs)

/-- A JSON number token, kept as its lexeme. -/
def parseNumber (cs : List Char) : Option (String × List Char) :=
  let sp : List Char × List Char :=
    match cs with
    | '-' :: r => (['-'], r)
    | _ => ([], cs)
  match parseIntPart sp.2 with
  | none => none
  | some (ip, r1) =>
    match parseFracPart r1 with
    | none => none
    | some (fp, r2) =>
      match parseExpPart r2 with
      | none => none
      | some (ep, r3) => some (String.mk (sp.1 ++ ip ++ fp ++ ep), r3)

mutual

def parseVal : Nat → List Char → Option (Json × List Char)
  | 0, _ => none
  | f + 1, cs =>
    match skipWSJson cs with
    | 'n' :: 'u' :: 'l' :: 'l' :: r => some (.null, r)
    | 't' :: 'r' :: 'u' :: 'e' :: r => some (.bool true, r)
    | 'f' :: 'a' :: 'l' :: 's' :: 'e' :: r => some (.bool false, r)
    | '"' :: r => (parseStringBody r []).map (fun p => (.str p.1, p.2))
    | '[' :: r =>
      (match skipWSJson r with
       | ']' :: r2 => some (.arr [], r2)
       | _ => (parseArrItems f r []).map (fun p => (.arr p.1, p.2)))
    | '\x7b' :: r =>
      (match skipWSJson r with
       | '\x7d' :: r2 => some (.obj [], r2)
       | _ => (parseObjItems f r []).map (fun p => (.obj p.1, p.2)))
    | rest => (parseNumber rest).map (fun p => (.num p.1, p.2))

def parseArrItems : Nat → List Char → List Json → Option (List Json × List Char)
  | 0, _, _ => none
  | f + 1, cs, acc =>
    match parseVal f cs with
    | none => none
    | some (v, rest) =>
      match skipWSJson rest with
      | ',' :: r => parseArrItems f r (v :: acc)
      | ']' :: r => some ((v :: acc).reverse, r)
      | _ => none

def parseObjItems : Nat → List Char → List (String × Json) → Option (List (String × Json) × List Char)
  | 0, _, _ => none
  | f + 1, cs, acc =>
    match skipWSJson cs with
    | '"' :: r =>
      (match parseStringBody r [] with
       | none => none
       | some (k, rest) =>
         match skipWSJson rest with
         | ':' :: r2 =>
           (match parseVal f r2 with
            | none => none
            | some (v, rest2) =>
              match skipWSJson rest2 with
              | ',' :: r3 => parseObjItems f r3 ((k, v) :: acc)
              | '\x7d' :: r3 => some (((k, v) :: acc).reverse, r3)
              | _ => none)
         | _ => none)
    | _ => none

end

/-- `JSON.parse` on a character sequence; `none` models a thrown
`SyntaxError`.  The fuel `2 * length + 2` dominates the recursion depth,
which consumes at least one character every two fuel units. -/
def jsonParse (cs : List Char) : Option Json :=
  match parseVal (2 * cs.length + 2) cs with
  | some (v, rest) => if (skipWSJson rest).isEmpty then some v else none
  | none => none

/-- `safeJsonParse` from worker/task_workflow.ts: `JSON.parse` with the
exception turned into `null` (modelled as `none`). -/
def safeJsonParse (text : String) : Option Json :=
  jsonParse text.toList

/- ### Stream Relay (worker/index.ts, POST /api/chat/stream read loop) -/

/-- Characters removed by JavaScript `String.prototype.trim`. -/
def isWSChar (c : Char) : Bool :=
  c == ' ' || c == '\t' || c == '\n' || c == '\r' ||
  c == '\x0b' || c == '\x0c' || c == '\u00A0' || c == '\uFEFF'

/-- `s.trim()`. -/
def trimList (l : List Char) : List Char :=
  ((l.dropWhile isWSChar).reverse.dropWhile isWSChar).reverse

/-- `frame.split("\n")`. -/
def splitNL : List Char → List (List Char)
  | [] => [[]]
  | '\n' :: rest => [] :: splitNL rest
  | c :: rest =>
    match splitNL rest with
    | [] => [[c]]
    | l :: ls => (c :: l) :: ls

/-- One line of a frame: text contributed to the accumulator.  Mirrors the
inner `for` loop: trim, require the `data:` head, drop it, trim the
payload, skip empty payloads and the `[DONE]` sentinel, `JSON.parse`
best-effort, and accumulate `obj.response` when it is a string. -/
def procLine (line : List Char) : List Char :=
  let trimmed := trimList line
  if "data:".toList.isPrefixOf trimmed then
    let payload := trimList (trimmed.drop 5)
    if payload = [] ∨ payload = "[DONE]".toList then []
    else
      match jsonParse payload with
      | some j =>
        (match getProp j "response" with
         | some (.str s) => s.toList
         | _ => [])
      | none => []
  else []

/-- Text a whole frame contributes to the accumulator. -/
def procFrame (frame : List Char) : List Char :=
  (splitNL frame).foldl (fun acc l => acc ++ procLine l) []

/-- `buffer.indexOf("\n\n")`: the first blank-line delimiter, returning
the part before it and the part after it (`slice(0, idx)` / `slice(idx + 2)`). -/
def findDelim : List Char → Option (List Char × List Char)
  | [] => none
  | c :: rest =>
    if c = '\n' ∧ rest.head? = some '\n' then
      some ([], rest.tail)
    else
      match findDelim rest with
      | some (pre, post) => some (c :: pre, post)
      | none => none

/-- The mutable state of the read loop: the pending line `buffer` and the
accumulated transcript `full`. -/
structure RelayState where
  buffer : List Char
  full : List Char

/-- The inner `while ((idx = buffer.indexOf("\n\n")) !== -1)` loop, with
fuel (each iteration removes at least two characters from the buffer, so
`buffer.length` fuel always suffices). -/
def drainAux : Nat → List Char → List Char → RelayState
  | 0, buf, acc => ⟨buf, acc⟩
  | f + 1, buf, acc =>
    match findDelim buf with
    | none => ⟨buf, acc⟩
    | some (frame, rest) => drainAux f rest (acc ++ procFrame frame)

/-- Extract and process every complete frame currently in the buffer. -/
def drain (buf acc : List Char) : RelayState :=
  drainAux buf.length buf acc

/-- One iteration of the read loop on a decoded chunk: extend the buffer,
then drain complete frames.  (`TextDecoder` with `stream: true` makes the
decoded text of the chunks concatenate to the decoded text of the whole
byte stream, so chunks are modelled after decoding.) -/
def feedChunk (st : RelayState) (chunk : List Char) : RelayState :=
  drain (st.buffer ++ chunk) st.full

/-- The read loop over a whole upstream chunk sequence. -/
def relayProcess (chunks : List (List Char)) : RelayState :=
  chunks.foldl feedChunk ⟨[], []⟩

/-- Observable actions of the stream handler: bytes enqueued to the
outbound channel, the best-effort memory append, closing the channel. -/
inductive REvent where
  | enqueue (bytes : List Char)
  | memWrite (body : Json)
  | close

/-- `JSON.stringify({role: "assistant", content: full})`, as the parsed
message the Conversation Store receives. -/
def assistantMsg (full : List Char) : Json :=
  Json.obj [("role", Json.str "assistant"), ("content", Json.str (String.mk full))]

/-- The `finally` block: when the trimmed accumulator is non-empty the
memory append is awaited first; if that append rejects, the exception
propagates out of the `finally` block and `controller.close()` is never
executed.  `appendOk` tells whether the awaited append succeeds. -/
def finallyEvents (full : List Char) (appendOk : Bool) : List REvent :=
  if 0 < (trimList full).length then
    if appendOk then [.memWrite (assistantMsg full), .close]
    else [.memWrite (assistantMsg full)]
  else [.close]

/-- All observable actions of one stream-relay execution: each chunk is
forwarded unmodified in arrival order, then the `finally` block runs. -/
def relayEvents (chunks : List (List Char)) (appendOk : Bool) : List REvent :=
  chunks.map REvent.enqueue ++ finallyEvents (relayProcess chunks).full appendOk

/-- Bytes forwarded to the client. -/
def forwardedBytes (events : List REvent) : List Char :=
  events.foldl (fun acc e => match e with | .enqueue b => acc ++ b | _ => acc) []

/-- The messages appended to the Conversation Store, in order. -/
def appendsOf (events : List REvent) : List Json :=
  events.filterMap (fun e => match e with | .memWrite b => some b | _ => none)

/-- How often the outbound channel is closed. -/
def closeCount (events : List REvent) : Nat :=
  events.countP (fun e => match e with | .close => true | _ => false)

/-- The three frames of the worked example. -/
def helFrame : List Char := "data: \x7b\"response\":\"Hel\"\x7d\n\n".toList

def loFrame : List Char := "data: \x7b\"response\":\"lo\"\x7d\n\n".toList

def doneFrame : List Char := "data: [DONE]\n\n".toList

/-- A frame whose payload decodes to a whitespace-only response text. -/
def spaceFrame : List Char := "data: \x7b\"response\":\" \"\x7d\n\n".toList

/-- A frame carrying a non-trivial response text. -/
def hiFrame : List Char := "data: \x7b\"response\":\"Hi\"\x7d\n\n".toList

/- ### Durable Step Executor planning step (worker/task_workflow.ts) -/

mutual

/-- JavaScript `String(v)` on a JSON value. -/
def jsToString : Json → String
  | .null => "null"
  | .bool b => if b then "true" else "false"
  | .num lit => lit
  | .str s => s
  | .arr xs => arrToString xs
  | .obj _ => "[object Object]"

/-- `Array.prototype.join(",")` as invoked by `String(array)`; `null`
elements render empty. -/
def arrToString : List Json → String
  | [] => ""
  | [Json.null] => ""
  | [x] => jsToString x
  | Json.null :: xs => "," ++ arrToString xs
  | x :: xs => jsToString x ++ "," ++ arrToString xs

end

/-- The planning step of `TaskWorkflow.run` applied to the model's text
output: `safeJsonParse`, the `obj && Array.isArray(obj.plan)` guard,
`obj.plan.map(String).slice(0, 3)`, and the fixed fallback plan. -/
def planFromText (text : String) : List String :=
  let obj := safeJsonParse text
  let steps : Option (List String) :=
    match obj with
    | some j =>
      if jsTruthy j then
        match getProp j "plan" with
        | some (Json.arr xs) => some ((xs.map jsToString).take 3)
        | _ => none
      else none
    | none => none
  steps.getD ["Clarify goal", "Do the main work", "Summarize output"]

/- ### JSON.stringify (used for the reply fallback and message bodies) -/

def hexDigitStr (n : Nat) : String :=
  String.mk [Char.ofNat (if n < 10 then 48 + n else 87 + n)]

/-- `JSON.stringify` escaping of one string character. -/
def escapeJsonChar (c : Char) : String :=
  if c = '"' then "\\\""
  else if c = '\\' then "\\\\"
  else if c = '\x08' then "\\b"
  else if c = '\x0c' then "\\f"
  else if c = '\n' then "\\n"
  else if c = '\r' then "\\r"
  else if c = '\t' then "\\t"
  else if c.toNat < 32 then "\\u00" ++ hexDigitStr (c.toNat / 16) ++ hexDigitStr (c.toNat % 16)
  else String.mk [c]

def quoteJson (s : String) : String :=
  "\"" ++ String.join (s.toList.map escapeJsonChar) ++ "\""

mutual

def jsonStringify : Json → String
  | .null => "null"
  | .bool b => if b then "true" else "false"
  | .num lit => lit
  | .str s => quoteJson s
  | .arr xs => "[" ++ stringifyItems xs ++ "]"
  | .obj fs => "\x7b" ++ stringifyFields fs ++ "\x7d"

def stringifyItems : List Json → String
  | [] => ""
  | [x] => jsonStringify x
  | x :: xs => jsonStringify x ++ "," ++ stringifyItems xs

def stringifyFields : List (String × Json) → String
  | [] => ""
  | [(k, v)] => quoteJson k ++ ":" ++ jsonStringify v
  | (k, v) :: fs => quoteJson k ++ ":" ++ jsonStringify v ++ "," ++ stringifyFields fs

end

/- ### Worker router (worker/index.ts fetch handler) -/

/-- An incoming HTTP request as the router reads it: method, pathname, the
`user` and `instanceId` query parameters, and the parsed JSON body. -/
structure WRequest where
  method : String
  path : String
  userParam : Option String
  instanceIdParam : Option String
  body : Json

/-- The external collaborators' behavior for one request: what `/get`
returns, the synchronous and streaming `AI.run` results, whether the
post-stream best-effort append succeeds, `crypto.randomUUID()`, and the
workflow `status()` values. -/
structure WEnv where
  history : List Json
  aiResult : Json
  aiChunks : List (List Char)
  appendOk : Bool
  newUuid : String
  createStatus : Json
  lookupStatus : Json

/-- Side effects of one router invocation, in program order. -/
inductive Effect where
  | memAppend (user : String) (body : Json)
  | memGet (user : String)
  | memClear (user : String)
  | aiRun
  | aiRunStream
  | wfCreate (id : String) (goal : Option Json)
  | wfLookup (id : String)

inductive WBody where
  | empty
  | jsonB (j : Json)
  | textB (s : String)
  | streamB (events : List REvent)

structure WResponse where
  status : Nat
  body : WBody

/-- `url.pathname.startsWith("/api/")`. -/
def pathIsApi (p : String) : Bool :=
  "/api/".toList.isPrefixOf p.toList

/-- `url.searchParams.get("user") ?? "demo"`: the Conversation Store
identity the request selects. -/
def identityOf (req : WRequest) : String :=
  req.userParam.getD "demo"

/-- `JSON.stringify({role, content})` as the parsed message body;
an `undefined` content (missing field) is dropped by serialization. -/
def msgBody (role : String) (content : Option Json) : Json :=
  Json.obj (("role", Json.str role) ::
    (match content with
     | some c => [("content", c)]
     | none => []))

/-- JavaScript nullish test (for the `??` operator). -/
def jsNullish : Option Json → Bool
  | none => true
  | some .null => true
  | some _ => false

/-- `result?.response ?? result?.output_text ?? JSON.stringify(result)`. -/
def replyOf (result : Json) : Json :=
  if !jsNullish (getProp result "response") then
    (getProp result "response").getD .null
  else if !jsNullish (getProp result "output_text") then
    (getProp result "output_text").getD .null
  else .str (jsonStringify result)

def jsonResp (j : Json) : WResponse := ⟨200, .jsonB j⟩

/-- `POST /api/chat`. -/
def handleChat (env : WEnv) (userId : String) (body : Json) : List Effect × WResponse :=
  let message := getProp body "message"
  let reply := replyOf env.aiResult
  ([.memAppend userId (msgBody "user" message),
    .memGet userId,
    .aiRun,
    .memAppend userId (msgBody "assistant" (some reply))],
   jsonResp (Json.obj [("reply", reply)]))

/-- `POST /api/task`. -/
def handleTaskStart (env : WEnv) (body : Json) : List Effect × WResponse :=
  let goal := getProp body "goal"
  ([.wfCreate env.newUuid goal],
   jsonResp (Json.obj [("id", Json.str env.newUuid), ("status", env.createStatus)]))

/-- `GET /api/task`. -/
def handleTaskStatus (env : WEnv) (instanceId : Option String) : List Effect × WResponse :=
  match instanceId with
  | none => ([], ⟨400, .textB "Missing instanceId"⟩)
  | some i => ([.wfLookup i], jsonResp (Json.obj [("status", env.lookupStatus)]))

/-- `POST /api/clear`. -/
def handleClear (userId : String) : List Effect × WResponse :=
  ([.memClear userId], jsonResp (Json.obj [("ok", Json.bool true)]))

/-- `POST /api/chat/stream`: the pre-stream memory operations, then the
relayed stream as the response body. -/
def handleChatStream (env : WEnv) (userId : String) (body : Json) : List Effect × WResponse :=
  let message := getProp body "message"
  ([.memAppend userId (msgBody "user" message),
    .memGet userId,
    .aiRunStream],
   ⟨200, .streamB (relayEvents env.aiChunks env.appendOk)⟩)

/-- The router of worker/index.ts: the non-`/api/` 404 guard, identity
selection, the five route/method pairs in source order, and the starter
default response. -/
def workerFetch (env : WEnv) (req : WRequest) : List Effect × WResponse :=
  if !pathIsApi req.path then ([], ⟨404, .empty⟩)
  else
    let userId := identityOf req
    if req.method == "POST" && req.path == "/api/chat" then
      handleChat env userId req.body
    else if req.method == "POST" && req.path == "/api/task" then
      handleTaskStart env req.body
    else if req.method == "GET" && req.path == "/api/task" then
      handleTaskStatus env req.instanceIdParam
    else if req.method == "POST" && req.path == "/api/clear" then
      handleClear userId
    else if req.method == "POST" && req.path == "/api/chat/stream" then
      handleChatStream env userId req.body
    else ([], jsonResp (Json.obj [("name", Json.str "Cloudflare")]))

/-- Whether a request matches one of the five defined route/method pairs. -/
def routeMatches (req : WRequest) : Bool :=
  (req.method == "POST" && req.path == "/api/chat") ||
  (req.method == "POST" && req.path == "/api/task") ||
  (req.method == "GET" && req.path == "/api/task") ||
  (req.method == "POST" && req.path == "/api/clear") ||
  (req.method == "POST" && req.path == "/api/chat/stream")

/-- The Conversation Store identity an effect targets, if any. -/
def memUserOf : Effect → Option String
  | .memAppend u _ => some u
  | .memGet u => some u
  | .memClear u => some u
  | _ => none

/-- Every Conversation Store effect targets identity `u`. -/
def usesOnly (u : String) (e : Effect) : Bool :=
  match memUserOf e with
  | some v => v == u
  | none => true

/-- A concrete environment for instantiations. -/
def demoEnv : WEnv :=
  ⟨[], Json.obj [("response", Json.str "ok")], [], true, "id-1",
   Json.str "queued", Json.str "running"⟩

/-- `POST /api/chat` with a JSON body that lacks the required `message`
field and no `user` query parameter. -/
def reqChatNoMessage : WRequest :=
  ⟨"POST", "/api/chat", none, none, Json.obj []⟩

/- ### Theorems -/

theorem sliceLast_length_le (n : Nat) (l : List α) : (sliceLast n l).length ≤ n := by
  simp [sliceLast]
  omega

theorem sliceLast_of_length_le (n : Nat) (l : List α) (h : l.length ≤ n) :
    sliceLast n l = l := by
  simp [sliceLast, Nat.sub_eq_zero_of_le h]

theorem sliceLast_append_of_le (n : Nat) (a b : List α) (h : n ≤ b.length) :
    sliceLast n (a ++ b) = sliceLast n b := by
  unfold sliceLast
  have h1 : (a ++ b).length - n = a.length + (b.length - n) := by
    simp; omega
  rw [h1, List.drop_append_eq_append_drop]
  simp

theorem sliceLast_sliceLast_append (n : Nat) (x y : List α) :
    sliceLast n (sliceLast n x ++ y) = sliceLast n (x ++ y) := by
  by_cases h : x.length ≤ n
  · rw [sliceLast_of_length_le n x h]
  · have hx : x = x.take (x.length - n) ++ x.drop (x.length - n) :=
      (List.take_append_drop _ _).symm
    have hlen : n ≤ (sliceLast n x ++ y).length := by
      have : (sliceLast n x).length = n := by
        simp [sliceLast]; omega
      simp [this]
    calc sliceLast n (sliceLast n x ++ y)
        = sliceLast n (x.take (x.length - n) ++ (sliceLast n x ++ y)) := by
          rw [sliceLast_append_of_le n _ _ hlen]
      _ = sliceLast n (x ++ y) := by
          rw [← List.append_assoc]
          show sliceLast n ((x.take (x.length - n) ++ x.drop (x.length - n)) ++ y) = _
          rw [List.take_append_drop]

theorem storedHistory_runAppends (ms : List Json) :
    ∀ st, (storedHistory st).length ≤ 20 →
      storedHistory (runAppends st ms) = sliceLast 20 (storedHistory st ++ ms) := by
  induction ms with
  | nil =>
      intro st h
      simp [runAppends, sliceLast_of_length_le 20 _ h]
  | cons m ms ih =>
      intro st h
      have hstep : runAppends st (m :: ms) =
          runAppends (some (sliceLast 20 (storedHistory st ++ [m]))) ms := by
        simp [runAppends, memStep]
      rw [hstep, ih _ (by simpa [storedHistory] using sliceLast_length_le 20 (storedHistory st ++ [m]))]
      simp only [storedHistory, Option.getD_some]
      rw [sliceLast_sliceLast_append]
      simp

/-- C1: after more than 20 `/append` operations to one identity, `/get`
responds with exactly the last 20 appended messages in their original
relative order, and after every operation the stored history has length
at most 20. -/
theorem appendHistory_bounded_last20 (st : Option (List Json)) (ms : List Json)
    (hst : (storedHistory st).length ≤ 20) (hms : 20 < ms.length) :
    (memStep (runAppends st ms) .getHist).2 =
      .ok (Json.obj [("history", Json.arr (ms.drop (ms.length - 20)))])
    ∧ (ms.drop (ms.length - 20)).length = 20
    ∧ ((List.range (ms.length + 1)).all
        (fun k => decide ((storedHistory (runAppends st (ms.take k))).length ≤ 20))) := by
  refine ⟨?_, ?_, ?_⟩
  · have h1 := storedHistory_runAppends ms st hst
    have h2 : sliceLast 20 (storedHistory st ++ ms) = sliceLast 20 ms :=
      sliceLast_append_of_le 20 _ _ (by omega)
    have : storedHistory (runAppends st ms) = ms.drop (ms.length - 20) := by
      rw [h1, h2]; rfl
    simp [memStep, this]
  · simp; omega
  · rw [List.all_eq_true]
    intro k _
    rw [decide_eq_true_iff]
    rw [storedHistory_runAppends (ms.take k) st hst]
    exact sliceLast_length_le 20 _

/-- Concrete instantiation of `appendHistory_bounded_last20`: 21 appends
to an empty store. -/
theorem appendHistory_bounded_last20_inst :
    (memStep (runAppends none ((List.range 21).map (fun i => Json.str (toString i)))) .getHist).2 =
      .ok (Json.obj [("history", Json.arr
        (((List.range 21).map (fun i => Json.str (toString i))).drop
          (((List.range 21).map (fun i => Json.str (toString i))).length - 20)))])
    ∧ ((((List.range 21).map (fun i => Json.str (toString i))).drop
          (((List.range 21).map (fun i => Json.str (toString i))).length - 20)).length = 20)
    ∧ ((List.range (((List.range 21).map (fun i => Json.str (toString i))).length + 1)).all
        (fun k => decide ((storedHistory (runAppends none
          (((List.range 21).map (fun i => Json.str (toString i))).take k))).length ≤ 20))) :=
  appendHistory_bounded_last20 none _ (by simp [storedHistory]) (by simp)

/-- C8: `/clear` followed by `/get` answers with an empty history whatever
the prior storage content, and `/get` on an identity with no stored
history answers with an empty history (a 200 JSON response, never a
failure). -/
theorem memory_clear_get_empty (st : Option (List Json)) :
    (memStep (memStep st .clearHist).1 .getHist).2 =
      .ok (Json.obj [("history", Json.arr [])])
    ∧ (memStep none .getHist).2 = .ok (Json.obj [("history", Json.arr [])]) := by
  constructor
  · rfl
  · rfl

theorem findDelim_some_decomp : ∀ {buf pre post : List Char},
    findDelim buf = some (pre, post) → buf = pre ++ '\n' :: '\n' :: post := by
  intro buf
  induction buf with
  | nil => intro pre post h; simp [findDelim] at h
  | cons c rest ih =>
    intro pre post h
    by_cases hc : c = '\n' ∧ rest.head? = some '\n'
    · rw [findDelim, if_pos hc] at h
      obtain ⟨hc1, hc2⟩ := hc
      cases rest with
      | nil => simp at hc2
      | cons r0 rr =>
        have hr0 : r0 = '\n' := by simpa using hc2
        simp only [Option.some.injEq, Prod.mk.injEq] at h
        obtain ⟨hp, hq⟩ := h
        subst hp; subst hq; subst hc1; subst hr0; rfl
    · rw [findDelim, if_neg hc] at h
      cases hr : findDelim rest with
      | none => rw [hr] at h; exact absurd h (by simp)
      | some pr =>
        obtain ⟨p, q⟩ := pr
        rw [hr] at h
        simp only [Option.some.injEq, Prod.mk.injEq] at h
        obtain ⟨hp, hq⟩ := h
        subst hp; subst hq
        have := ih hr
        rw [List.cons_append, ← this]

theorem findDelim_length {buf pre post : List Char}
    (h : findDelim buf = some (pre, post)) : post.length + 2 ≤ buf.length := by
  have := findDelim_some_decomp h
  subst this
  simp

theorem findDelim_append (y : List Char) : ∀ {buf pre post : List Char},
    findDelim buf = some (pre, post) →
    findDelim (buf ++ y) = some (pre, post ++ y) := by
  intro buf
  induction buf with
  | nil => intro pre post h; simp [findDelim] at h
  | cons c rest ih =>
    intro pre post h
    by_cases hc : c = '\n' ∧ rest.head? = some '\n'
    · rw [findDelim, if_pos hc] at h
      obtain ⟨hc1, hc2⟩ := hc
      cases rest with
      | nil => simp at hc2
      | cons r0 rr =>
        have hr0 : r0 = '\n' := by simpa using hc2
        simp only [Option.some.injEq, Prod.mk.injEq] at h
        obtain ⟨hp, hq⟩ := h
        subst hp; subst hq
        rw [List.cons_append, List.cons_append, findDelim,
          if_pos (by simp [hc1, hr0] : c = '\n' ∧ (r0 :: (rr ++ y)).head? = some '\n')]
        simp [hr0]
    · rw [findDelim, if_neg hc] at h
      cases hr : findDelim rest with
      | none => rw [hr] at h; exact absurd h (by simp)
      | some pr =>
        obtain ⟨p, q⟩ := pr
        rw [hr] at h
        simp only [Option.some.injEq, Prod.mk.injEq] at h
        obtain ⟨hp, hq⟩ := h
        subst hp; subst hq
        have hrne : rest ≠ [] := by
          intro hnil; rw [hnil] at hr; simp [findDelim] at hr
        have hhead : (rest ++ y).head? = rest.head? := by
          cases rest with
          | nil => exact absurd rfl hrne
          | cons a l => rfl
        rw [List.cons_append, findDelim, if_neg (by rw [hhead]; exact hc), ih hr]

theorem drainAux_fuel_irrel : ∀ (f g : Nat) (buf acc : List Char),
    buf.length ≤ f → buf.length ≤ g → drainAux f buf acc = drainAux g buf acc := by
  intro f
  induction f with
  | zero =>
    intro g buf acc hf _
    have hb : buf = [] := List.eq_nil_of_length_eq_zero (Nat.le_zero.mp hf)
    subst hb
    cases g with
    | zero => rfl
    | succ g => simp [drainAux, findDelim]
  | succ f ih =>
    intro g buf acc hf hg
    cases g with
    | zero =>
      have hb : buf = [] := List.eq_nil_of_length_eq_zero (Nat.le_zero.mp hg)
      subst hb
      simp [drainAux, findDelim]
    | succ g =>
      simp only [drainAux]
      cases hd : findDelim buf with
      | none => rfl
      | some pr =>
        obtain ⟨frame, rest⟩ := pr
        have hlen := findDelim_length hd
        exact ih g rest _ (by omega) (by omega)

theorem drainAux_none (f : Nat) (buf acc : List Char) (h : findDelim buf = none) :
    drainAux f buf acc = ⟨buf, acc⟩ := by
  cases f with
  | zero => rfl
  | succ f => simp [drainAux, h]

theorem drain_none (buf acc : List Char) (h : findDelim buf = none) :
    drain buf acc = ⟨buf, acc⟩ :=
  drainAux_none _ _ _ h

theorem drain_step (buf acc frame rest : List Char)
    (h : findDelim buf = some (frame, rest)) :
    drain buf acc = drain rest (acc ++ procFrame frame) := by
  unfold drain
  have hlen := findDelim_length h
  cases hb : buf.length with
  | zero => omega
  | succ n =>
    rw [hb] at hlen
    simp only [drainAux, h]
    exact drainAux_fuel_irrel n rest.length rest _ (by omega) le_rfl

theorem drain_append_aux : ∀ (n : Nat) (buf : List Char), buf.length ≤ n →
    ∀ (acc y : List Char),
      drain (buf ++ y) acc = drain ((drain buf acc).buffer ++ y) (drain buf acc).full := by
  intro n
  induction n with
  | zero =>
    intro buf hb acc y
    have hbe : buf = [] := List.eq_nil_of_length_eq_zero (Nat.le_zero.mp hb)
    subst hbe
    rw [drain_none [] acc rfl]
  | succ n ih =>
    intro buf hb acc y
    cases hd : findDelim buf with
    | none => rw [drain_none buf acc hd]
    | some pr =>
      obtain ⟨frame, rest⟩ := pr
      have hfa := findDelim_append y hd
      rw [drain_step (buf ++ y) acc frame (rest ++ y) hfa,
          drain_step buf acc frame rest hd]
      have hlen := findDelim_length hd
      exact ih rest (by omega) (acc ++ procFrame frame) y

theorem drain_buffer_delimFree : ∀ (n : Nat) (buf : List Char), buf.length ≤ n →
    ∀ acc, findDelim (drain buf acc).buffer = none := by
  intro n
  induction n with
  | zero =>
    intro buf hb acc
    have hbe : buf = [] := List.eq_nil_of_length_eq_zero (Nat.le_zero.mp hb)
    subst hbe
    rw [drain_none [] acc rfl]
    rfl
  | succ n ih =>
    intro buf hb acc
    cases hd : findDelim buf with
    | none => rw [drain_none buf acc hd]; exact hd
    | some pr =>
      obtain ⟨frame, rest⟩ := pr
      rw [drain_step buf acc frame rest hd]
      have hlen := findDelim_length hd
      exact ih rest (by omega) _

theorem feedChunk_append (st : RelayState) (a b : List Char) :
    feedChunk (feedChunk st a) b = feedChunk st (a ++ b) := by
  unfold feedChunk
  rw [← drain_append_aux (st.buffer ++ a).length (st.buffer ++ a) le_rfl st.full b,
    List.append_assoc]

theorem foldl_feedChunk : ∀ (chunks : List (List Char)) (st : RelayState),
    findDelim st.buffer = none → chunks.foldl feedChunk st = feedChunk st chunks.flatten := by
  intro chunks
  induction chunks with
  | nil =>
    intro st h
    show st = feedChunk st []
    unfold feedChunk
    rw [List.append_nil, drain_none _ _ h]
  | cons a cs ih =>
    intro st h
    simp only [List.foldl_cons, List.flatten_cons]
    rw [ih (feedChunk st a) (drain_buffer_delimFree _ _ le_rfl _), feedChunk_append]

/-- C3: the accumulated transcript of the Stream Relay depends only on the
concatenation of the upstream chunks, not on where the chunk boundaries
fall — re-chunking the same byte sequence never changes the accumulator. -/
theorem relay_accumulator_chunking_invariant (cs1 cs2 : List (List Char))
    (h : cs1.flatten = cs2.flatten) :
    (relayProcess cs1).full = (relayProcess cs2).full := by
  unfold relayProcess
  rw [foldl_feedChunk cs1 ⟨[], []⟩ rfl, foldl_feedChunk cs2 ⟨[], []⟩ rfl, h]

/-- Concrete instantiation of `relay_accumulator_chunking_invariant`:
frame-aligned chunks versus a split in the middle of the first frame's
JSON payload. -/
theorem relay_accumulator_chunking_invariant_inst :
    (relayProcess [helFrame, loFrame, doneFrame]).full =
      (relayProcess [(helFrame ++ loFrame ++ doneFrame).take 9,
                     (helFrame ++ loFrame ++ doneFrame).drop 9]).full :=
  relay_accumulator_chunking_invariant _ _ (by simp)

/-- C4: on the three frames of the worked example the relay forwards the
verbatim concatenation of all three frames and appends exactly the message
`{role: "assistant", content: "Hello"}` — the `[DONE]` sentinel and empty
payloads are forwarded but never accumulated. -/
theorem relay_hello_frames_forward_and_store :
    forwardedBytes (relayEvents [helFrame, loFrame, doneFrame] true) =
      helFrame ++ loFrame ++ doneFrame
    ∧ appendsOf (relayEvents [helFrame, loFrame, doneFrame] true) =
      [Json.obj [("role", Json.str "assistant"), ("content", Json.str "Hello")]] := by
  constructor
  · rfl
  · rfl

/-- C5 is violated by the code: in the `finally` block the best-effort
append is awaited before `controller.close()`, so when the append rejects
(`appendOk = false`) the outbound channel is never closed (`closeCount = 0`),
although the append was attempted and the same run with a successful
append closes exactly once. -/
theorem relay_close_skipped_on_append_failure :
    closeCount (relayEvents [hiFrame] false) = 0
    ∧ closeCount (relayEvents [hiFrame] true) = 1
    ∧ appendsOf (relayEvents [hiFrame] false) = [assistantMsg "Hi".toList] := by
  refine ⟨rfl, rfl, rfl⟩

/-- C6 as stated is false: a frame whose payload is the whitespace string
`" "` leaves the accumulator non-empty, yet nothing is appended to the
Conversation Store (the code tests `full.trim().length > 0`, not
non-emptiness of `full`). -/
theorem relay_nonempty_whitespace_no_append :
    (relayProcess [spaceFrame]).full ≠ []
    ∧ appendsOf (relayEvents [spaceFrame] true) = [] := by
  constructor
  · have h : (relayProcess [spaceFrame]).full = [' '] := rfl
    rw [h]
    simp
  · rfl

theorem appendsOf_append (a b : List REvent) :
    appendsOf (a ++ b) = appendsOf a ++ appendsOf b :=
  List.filterMap_append a b _

theorem appendsOf_enqueues (l : List (List Char)) :
    appendsOf (l.map REvent.enqueue) = [] := by
  induction l with
  | nil => rfl
  | cons a l ih => simp [appendsOf, List.filterMap_cons, ih]

/-- C6 (amended): on loop exit the Conversation Store receives exactly one
append, of `{role: assistant, content: accumulator}`, precisely when the
accumulator is non-empty after trimming whitespace; otherwise (in
particular when no recognized frame ever contributed, so the accumulator
is empty) nothing is stored. -/
theorem relay_append_iff_trimmed_nonempty (chunks : List (List Char)) :
    appendsOf (relayEvents chunks true) =
      if 0 < (trimList (relayProcess chunks).full).length
      then [assistantMsg (relayProcess chunks).full] else [] := by
  unfold relayEvents
  rw [appendsOf_append, appendsOf_enqueues, List.nil_append]
  unfold finallyEvents
  by_cases hc : 0 < (trimList (relayProcess chunks).full).length
  · rw [if_pos hc, if_pos hc]
    rfl
  · rw [if_neg hc, if_neg hc]
    rfl

/-- C2: if the planning model output is not valid JSON, or its parse has
no `plan` array property, the plan equals exactly the fixed fallback
`["Clarify goal", "Do the main work", "Summarize output"]`; and every
model output yields a plan of at most 3 items. -/
theorem planStep_fallback_shape :
    (∀ t : String, safeJsonParse t = none →
      planFromText t = ["Clarify goal", "Do the main work", "Summarize output"])
    ∧ (∀ (t : String) (j : Json), safeJsonParse t = some j →
        (∀ xs, getProp j "plan" ≠ some (Json.arr xs)) →
        planFromText t = ["Clarify goal", "Do the main work", "Summarize output"])
    ∧ (∀ t : String, (planFromText t).length ≤ 3) := by
  refine ⟨?_, ?_, ?_⟩
  · intro t h
    simp [planFromText, h]
  · intro t j h hplan
    unfold planFromText
    rw [h]
    by_cases ht : jsTruthy j
    · simp only [ht, if_true]
      cases hp : getProp j "plan" with
      | none => rfl
      | some v =>
        cases v with
        | arr xs => exact absurd hp (hplan xs)
        | null => rfl
        | bool b => rfl
        | num lit => rfl
        | str s => rfl
        | obj fs => rfl
    · simp [ht]
  · intro t
    unfold planFromText
    cases hj : safeJsonParse t with
    | none => simp
    | some j =>
      by_cases ht : jsTruthy j
      · simp only [ht, if_true]
        cases hp : getProp j "plan" with
        | none => simp
        | some v =>
          cases v with
          | arr xs =>
            simp only [Option.getD_some]
            exact List.length_take_le 3 _
          | null => simp
          | bool b => simp
          | num lit => simp
          | str s => simp
          | obj fs => simp
      · simp [ht]

/-- Concrete instantiations of `planStep_fallback_shape`: a non-JSON
output, an object whose `plan` is not an array, and an oversized plan. -/
theorem planStep_fallback_shape_inst :
    planFromText "not json" = ["Clarify goal", "Do the main work", "Summarize output"]
    ∧ planFromText "\x7b\"plan\":1\x7d" = ["Clarify goal", "Do the main work", "Summarize output"]
    ∧ (planFromText "\x7b\"plan\":[\"a\",\"b\",\"c\",\"d\"]\x7d").length ≤ 3 :=
  ⟨planStep_fallback_shape.1 "not json" rfl,
   planStep_fallback_shape.2.1 "\x7b\"plan\":1\x7d" (Json.obj [("plan", Json.num "1")]) rfl
     (by intro xs hxs; simp [getProp] at hxs),
   planStep_fallback_shape.2.2 "\x7b\"plan\":[\"a\",\"b\",\"c\",\"d\"]\x7d"⟩

/-- C7 is refuted by the code: `POST /api/chat` with a body that lacks the
required `message` field is not rejected — the Conversation Store append
(with the `content` key dropped by serialization) is the first side
effect performed, and the response status is 200, not a client error. -/
theorem chat_missing_message_side_effect :
    (workerFetch demoEnv reqChatNoMessage).1.head? =
      some (Effect.memAppend "demo" (Json.obj [("role", Json.str "user")]))
    ∧ (workerFetch demoEnv reqChatNoMessage).2.status = 200 :=
  ⟨rfl, rfl⟩

/-- C7 (amended): of the core endpoints only `GET /api/task` validates its
required field before acting — a request to it without `instanceId` is
rejected with a 400 client error and no side effect occurs. -/
theorem task_status_missing_instanceId_rejected (env : WEnv) (req : WRequest)
    (hm : req.method = "GET") (hp : req.path = "/api/task")
    (hq : req.instanceIdParam = none) :
    workerFetch env req = ([], ⟨400, .textB "Missing instanceId"⟩) := by
  cases req with
  | mk m p u iid b =>
    obtain rfl : m = "GET" := hm
    obtain rfl : p = "/api/task" := hp
    obtain rfl : iid = none := hq
    rfl

/-- Concrete instantiation of `task_status_missing_instanceId_rejected`. -/
theorem task_status_missing_instanceId_rejected_inst :
    workerFetch demoEnv ⟨"GET", "/api/task", none, none, Json.null⟩ =
      ([], ⟨400, .textB "Missing instanceId"⟩) :=
  task_status_missing_instanceId_rejected demoEnv _ rfl rfl rfl

/-- C9: a request carrying no `user` query parameter selects the fixed
Conversation Store identity "demo", and every Conversation Store effect
the router performs for it targets that shared identity. -/
theorem default_identity_demo (env : WEnv) (req : WRequest)
    (h : req.userParam = none) :
    identityOf req = "demo"
    ∧ (workerFetch env req).1.all (usesOnly "demo") = true := by
  have hid : identityOf req = "demo" := by rw [identityOf, h]; rfl
  refine ⟨hid, ?_⟩
  unfold workerFetch
  simp only [hid]
  split
  · rfl
  · split
    · simp [handleChat, usesOnly, memUserOf]
    · split
      · simp [handleTaskStart, usesOnly, memUserOf]
      · split
        · cases hiid : req.instanceIdParam with
          | none => simp [handleTaskStatus, usesOnly, memUserOf]
          | some i => simp [handleTaskStatus, usesOnly, memUserOf]
        · split
          · simp [handleClear, usesOnly, memUserOf]
          · split
            · simp [handleChatStream, usesOnly, memUserOf]
            · rfl

/-- Concrete instantiation of `default_identity_demo`. -/
theorem default_identity_demo_inst :
    identityOf reqChatNoMessage = "demo"
    ∧ (workerFetch demoEnv reqChatNoMessage).1.all (usesOnly "demo") = true :=
  default_identity_demo demoEnv reqChatNoMessage rfl

/-- C10: a request whose path does not start with "/api/" gets an empty
404 response with no side effects; a request under "/api/" that matches
no defined route/method pair gets the successful JSON body
`{"name": "Cloudflare"}`, not an error. -/
theorem routing_default_responses (env : WEnv) (req : WRequest) :
    (pathIsApi req.path = false → workerFetch env req = ([], ⟨404, .empty⟩))
    ∧ (pathIsApi req.path = true → routeMatches req = false →
        workerFetch env req = ([], jsonResp (Json.obj [("name", Json.str "Cloudflare")]))) := by
  constructor
  · intro h
    unfold workerFetch
    simp [h]
  · intro hp hr
    simp only [routeMatches, Bool.or_eq_false_iff] at hr
    obtain ⟨⟨⟨⟨h1, h2⟩, h3⟩, h4⟩, h5⟩ := hr
    unfold workerFetch
    simp [hp, h1, h2, h3, h4, h5]

/-- Concrete instantiations of `routing_default_responses`: a path
outside the api prefix and an unmatched api route. -/
theorem routing_default_responses_inst :
    workerFetch demoEnv ⟨"GET", "/foo", none, none, Json.null⟩ = ([], ⟨404, .empty⟩)
    ∧ workerFetch demoEnv ⟨"DELETE", "/api/nothing", none, none, Json.null⟩ =
        ([], jsonResp (Json.obj [("name", Json.str "Cloudflare")])) :=
  ⟨(routing_default_responses demoEnv _).1 rfl,
   (routing_default_responses demoEnv _).2 rfl rfl⟩
